import Mathlib

/-!
Verification of the cache key-value subsystem (rotkehlchen/globaldb/cache.py)
and the accounting rule resolver (rotkehlchen/accounting/rules.py).

Python strings are modelled as lists of characters, so that slicing and
concatenation follow the per-character semantics of the original code. The
two SQLite tables are modelled as lists of rows in storage order; the only
statements the code issues are INSERT OR REPLACE, SELECT by exact key,
SELECT by LIKE prefix and SELECT ordered by timestamp, each of which is
modelled directly below.
-/

namespace Rotki

/-- A Python string: a list of characters. -/
abbrev Str := List Char

/-- Modelled from the spec: the closed set of cache-type category tags
(rotkehlchen.types.CacheType is not under src/); each tag has a fixed,
type-specific canonical short serialization. -/
inductive CacheType where
  | CURVE_LP_TOKENS
  | CURVE_POOL_ADDRESS
  | CURVE_POOL_TOKENS
  | MAKERDAO_VAULT_ILK
deriving DecidableEq, Repr

/-- Modelled from the spec: the canonical short serialization of a
cache-type tag, a fixed code per tag. -/
def CacheType.serialize : CacheType → Str
  | .CURVE_LP_TOKENS => "CURVE_LP_TOKENS".data
  | .CURVE_POOL_ADDRESS => "CURVE_POOL_ADDRESS".data
  | .CURVE_POOL_TOKENS => "CURVE_POOL_TOKENS".data
  | .MAKERDAO_VAULT_ILK => "MAKERDAO_VAULT_ILK".data

/-- One element of the key_parts iterable of compute_cache_key: either a
CacheType tag or a raw string (Union[str, CacheType] in the source). -/
inductive KeyPart where
  | tag (t : CacheType)
  | str (s : Str)
deriving DecidableEq, Repr

/-- compute_cache_key (rotkehlchen/globaldb/cache.py lines 18-28): starts
from the empty string and iterates through key_parts, appending the
serialization of a CacheType part and a raw string part verbatim. -/
def compute_cache_key (key_parts : List KeyPart) : Str :=
  key_parts.foldl
    (fun cache_key part =>
      match part with
      | .tag t => cache_key ++ t.serialize
      | .str s => cache_key ++ s)
    []

/-- The piece a single fragment emits, in the words of the spec: a typed
tag emits its canonical short serialization, a raw string is emitted
verbatim. Used to compare compute_cache_key against the spec sentence
about delimiter-free concatenation of emitted pieces. -/
def keyPartPiece : KeyPart → Str
  | .tag t => t.serialize
  | .str s => s

/-- ZERO_ADDRESS from rotkehlchen/chain/evm/constants.py: the 42-character
zero address. -/
def ZERO_ADDRESS : Str := "0x0000000000000000000000000000000000000000".data

/-- BASE_POOL_TOKENS_KEY_LENGTH (cache.py line 32): the length of the key
computed from the CURVE_POOL_TOKENS tag and any address, every address
having the same length. -/
def BASE_POOL_TOKENS_KEY_LENGTH : Nat :=
  (compute_cache_key [.tag .CURVE_POOL_TOKENS, .str ZERO_ADDRESS]).length

/-- One row of the general_cache or unique_cache table:
(key TEXT, value TEXT, last_queried_ts INTEGER). -/
structure CacheRow where
  key : Str
  value : Str
  last_queried_ts : Nat
deriving DecidableEq, Repr

/-- The general_cache table: rows in storage order; the uniqueness
constraint on (key, value) is maintained by INSERT OR REPLACE. -/
abbrev GeneralCache := List CacheRow

/-- The unique_cache table: rows in storage order; the primary-key
constraint on key is maintained by INSERT OR REPLACE. -/
abbrev UniqueCache := List CacheRow

/-- INSERT OR REPLACE INTO general_cache: any row conflicting on the
composite (key, value) uniqueness is deleted and the fresh row inserted. -/
def generalInsertOrReplace (db : GeneralCache) (row : CacheRow) : GeneralCache :=
  db.filter (fun r => !(r.key == row.key && r.value == row.value)) ++ [row]

/-- globaldb_set_general_cache_values_at_ts (cache.py lines 35-49):
executemany of INSERT OR REPLACE over one (key, value, timestamp) tuple per
value, all under the same computed key. -/
def globaldb_set_general_cache_values_at_ts (db : GeneralCache)
    (key_parts : List KeyPart) (values : List Str) (timestamp : Nat) :
    GeneralCache :=
  let cache_key := compute_cache_key key_parts
  (values.map (fun value => CacheRow.mk cache_key value timestamp)).foldl
    generalInsertOrReplace db

/-- globaldb_get_general_cache_values (cache.py lines 68-76): SELECT value
FROM general_cache WHERE key matches exactly, in storage order. -/
def globaldb_get_general_cache_values (db : GeneralCache)
    (key_parts : List KeyPart) : List Str :=
  let cache_key := compute_cache_key key_parts
  (db.filter (fun r => r.key == cache_key)).map (fun r => r.value)

/-- INSERT OR REPLACE INTO unique_cache: any row conflicting on the primary
key is deleted and the fresh row inserted. -/
def uniqueInsertOrReplace (db : UniqueCache) (row : CacheRow) : UniqueCache :=
  db.filter (fun r => !(r.key == row.key)) ++ [row]

/-- globaldb_set_unique_cache_value_at_ts (cache.py lines 79-92). -/
def globaldb_set_unique_cache_value_at_ts (db : UniqueCache)
    (key_parts : List KeyPart) (value : Str) (timestamp : Nat) : UniqueCache :=
  uniqueInsertOrReplace db (CacheRow.mk (compute_cache_key key_parts) value timestamp)

/-- globaldb_get_unique_cache_value (cache.py lines 111-122): SELECT value
FROM unique_cache WHERE key matches exactly, then fetchone. -/
def globaldb_get_unique_cache_value (db : UniqueCache)
    (key_parts : List KeyPart) : Option Str :=
  let cache_key := compute_cache_key key_parts
  ((db.filter (fun r => r.key == cache_key)).map (fun r => r.value)).head?

/-- SQL LIKE pattern matching over characters: the percent wildcard matches
any (possibly empty) substring, the underscore wildcard matches exactly one
character, and every other pattern character matches itself. -/
def likeMatch : Str → Str → Bool
  | [], s => s.isEmpty
  | p :: ps, [] => if p = '%' then likeMatch ps [] else false
  | p :: ps, c :: s2 =>
    if p = '%' then likeMatch ps (c :: s2) || likeMatch (p :: ps) s2
    else if p = '_' then likeMatch ps s2
    else p == c && likeMatch ps s2
termination_by p s => p.length + s.length

/-- globaldb_get_general_cache_like (cache.py lines 125-139): SELECT value
FROM general_cache WHERE key LIKE the computed key followed by percent. -/
def globaldb_get_general_cache_like (db : GeneralCache)
    (key_parts : List KeyPart) : List Str :=
  let cache_key := compute_cache_key key_parts
  (db.filter (fun r => likeMatch (cache_key ++ ['%']) r.key)).map
    (fun r => r.value)

/-- globaldb_get_general_cache_keys_and_values_like (cache.py lines
142-156): SELECT key, value FROM general_cache WHERE key LIKE the computed
key followed by percent. -/
def globaldb_get_general_cache_keys_and_values_like (db : GeneralCache)
    (key_parts : List KeyPart) : List (Str × Str) :=
  let cache_key := compute_cache_key key_parts
  (db.filter (fun r => likeMatch (cache_key ++ ['%']) r.key)).map
    (fun r => (r.key, r.value))

/-- globaldb_get_general_cache_last_queried_ts_by_key (cache.py lines
159-176): SELECT last_queried_ts WHERE key matches exactly ORDER BY
last_queried_ts ASC, then fetchone; Timestamp(0) when no row exists. -/
def globaldb_get_general_cache_last_queried_ts_by_key (db : GeneralCache)
    (key_parts : List KeyPart) : Nat :=
  let cache_key := compute_cache_key key_parts
  match ((db.filter (fun r => r.key == cache_key)).map
      (fun r => r.last_queried_ts)).mergeSort (fun a b => a ≤ b) with
  | [] => 0
  | t :: _ => t

/-- Modelled from the spec: rotkehlchen.chain.evm.types.string_to_evm_address
is not under src/; it is a pure cast of the string into the address type,
with no validation. -/
def string_to_evm_address (s : Str) : Str := s

/-- Checks a tail of the digit run accepted by Python int() after its first
digit: decimal digits in which a single underscore may stand only between
two digits. -/
def pyDigitTail : List Char → Bool
  | [] => true
  | '_' :: c :: rest => c.isDigit && pyDigitTail rest
  | c :: rest => c.isDigit && pyDigitTail rest

/-- The digit run accepted by Python int(): at least one decimal digit,
with single underscores allowed only between digits. -/
def pyDigitRun : List Char → Bool
  | [] => false
  | c :: rest => c.isDigit && pyDigitTail rest

/-- Numeric value of a digit run, skipping grouping underscores. -/
def digitsToNat (cs : List Char) : Nat :=
  cs.foldl (fun n c => if c = '_' then n else 10 * n + (c.toNat - 48)) 0

/-- Surrounding-whitespace stripping performed by Python int() on string
input. -/
def stripWhitespace (cs : List Char) : List Char :=
  ((cs.dropWhile Char.isWhitespace).reverse.dropWhile Char.isWhitespace).reverse

/-- Python int(s) on a string argument in base 10: surrounding whitespace
is stripped, an optional sign precedes a run of decimal digits with
underscores allowed between digits; any other input raises ValueError,
modelled as none. -/
def pyInt (s : Str) : Option Int :=
  match stripWhitespace s with
  | '+' :: rest => if pyDigitRun rest then some (digitsToNat rest) else none
  | '-' :: rest => if pyDigitRun rest then some (-(digitsToNat rest : Int)) else none
  | rest => if pyDigitRun rest then some (digitsToNat rest) else none

/-- The loop of read_curve_pool_tokens (cache.py lines 212-215): int() over
the characters of each key after the fixed-length prefix, raising ValueError
(none here) on a malformed suffix, otherwise collecting (index, address)
pairs in row order. -/
def parsePoolTokens : List (Str × Str) → Option (List (Int × Str))
  | [] => some []
  | (key, address) :: rest =>
    match pyInt (key.drop BASE_POOL_TOKENS_KEY_LENGTH) with
    | none => none
    | some index =>
      (parsePoolTokens rest).map
        (fun tl => (index, string_to_evm_address address) :: tl)

/-- read_curve_pool_tokens (cache.py lines 199-218): queries keys and
values under the CURVE_POOL_TOKENS tag plus pool address prefix, parses
each key suffix with int() (ValueError is the error case), sorts by index
ascending with the stable list.sort and returns the addresses in that
order. -/
def read_curve_pool_tokens (db : GeneralCache) (pool_address : Str) :
    Except Str (List Str) :=
  let tokens_data := globaldb_get_general_cache_keys_and_values_like db
    [.tag .CURVE_POOL_TOKENS, .str pool_address]
  match parsePoolTokens tokens_data with
  | none => Except.error "invalid literal for int() with base 10".data
  | some found_tokens =>
    Except.ok ((found_tokens.mergeSort (fun a b => decide (a.1 ≤ b.1))).map
      (fun p => p.2))

/-- Modelled from the spec: rule settings objects (BaseEventSettings in
rotkehlchen.chain.evm.accounting.structures, not under src/) are opaque
values to the resolver; only identity matters here. -/
structure BaseEventSettings where
  settings_id : Nat
deriving DecidableEq, Repr

/-- Modelled from the spec: callbacks are opaque capability handles stored
alongside rules (EventsAccountantCallback is not under src/). -/
structure EventsAccountantCallback where
  callback_id : Nat
deriving DecidableEq, Repr

/-- Modelled from the spec: the identifier keying both in-memory mappings
is the composite of (event_type, event_subtype, counterparty);
get_event_type_identifier in rotkehlchen.accounting.structures.base is not
under src/ and is modelled as the composite itself. -/
abbrev TypeIdentifier := Str × Str × Option Str

/-- Modelled from the spec: builds the composite type identifier. -/
def get_event_type_identifier (event_type event_subtype : Str)
    (counterparty : Option Str) : TypeIdentifier :=
  (event_type, event_subtype, counterparty)

/-- Modelled from the spec: event objects (HistoryBaseEntry and its
counterparty-bearing subclass EvmEvent, not under src/) expose their type,
subtype, the EvmEvent discriminant and, for EvmEvents, an optional
counterparty. -/
structure HistoryBaseEntry where
  event_type : Str
  event_subtype : Str
  is_evm_event : Bool
  counterparty : Option Str
deriving DecidableEq, Repr

/-- Modelled from the spec: get_type_identifier includes the counterparty
only for an EvmEvent and only when include_counterparty is set; a
non-EvmEvent identifier never carries a counterparty. -/
def HistoryBaseEntry.get_type_identifier (e : HistoryBaseEntry)
    (include_counterparty : Bool) : TypeIdentifier :=
  if e.is_evm_event then
    get_event_type_identifier e.event_type e.event_subtype
      (if include_counterparty then e.counterparty else none)
  else
    get_event_type_identifier e.event_type e.event_subtype none

/-- The in-memory state of AccountingRulesManager (rules.py lines 15-28):
the event_settings and event_callbacks dictionaries, modelled as lookup
functions that return none on a missing key exactly like dict.get. -/
structure AccountingRulesManager where
  event_settings : TypeIdentifier → Option BaseEventSettings
  event_callbacks : TypeIdentifier → Option EventsAccountantCallback

/-- get_event_settings (rules.py lines 43-60): look up the full identifier;
when the event is not an EvmEvent or a rule was found, return the rule and
the callback under the full identifier; otherwise repeat the lookups under
the identifier computed without the counterparty. -/
def AccountingRulesManager.get_event_settings (m : AccountingRulesManager)
    (event : HistoryBaseEntry) :
    Option BaseEventSettings × Option EventsAccountantCallback :=
  let event_identifier := event.get_type_identifier true
  let rule := m.event_settings event_identifier
  if event.is_evm_event = false || rule.isSome then
    (rule, m.event_callbacks event_identifier)
  else
    let event_identifier2 := event.get_type_identifier false
    (m.event_settings event_identifier2, m.event_callbacks event_identifier2)

/-- clean_rules (rules.py lines 67-73): clears both in-memory mappings. -/
def AccountingRulesManager.clean_rules (_m : AccountingRulesManager) :
    AccountingRulesManager :=
  ⟨fun _ => none, fun _ => none⟩

/-! ## Helper lemmas about compute_cache_key -/

/-- The loop of compute_cache_key run from any accumulator appends the
concatenation of the emitted pieces to the accumulator. -/
theorem compute_cache_key_loop (acc : Str) (F : List KeyPart) :
    F.foldl
      (fun cache_key part =>
        match part with
        | .tag t => cache_key ++ t.serialize
        | .str s => cache_key ++ s)
      acc
    = acc ++ (F.map keyPartPiece).flatten := by
  induction F generalizing acc with
  | nil => simp
  | cons p F ih => cases p <;> simp [ih, keyPartPiece]

/-- compute_cache_key concatenates the emitted pieces in input order. -/
theorem compute_cache_key_eq_flatten (F : List KeyPart) :
    compute_cache_key F = (F.map keyPartPiece).flatten := by
  simpa using compute_cache_key_loop [] F

/-- compute_cache_key turns appending of fragment sequences into appending
of keys. -/
theorem compute_cache_key_append (F1 F2 : List KeyPart) :
    compute_cache_key (F1 ++ F2)
      = compute_cache_key F1 ++ compute_cache_key F2 := by
  simp [compute_cache_key_eq_flatten]

/-! ## Helper lemmas about likeMatch -/

/-- A pattern starting with the percent wildcard matches exactly the texts
with a suffix matching the rest of the pattern. -/
theorem likeMatch_percent_cons (ps : Str) (s : Str) :
    likeMatch ('%' :: ps) s = true
      ↔ ∃ s1 s2, s = s1 ++ s2 ∧ likeMatch ps s2 = true := by
  induction s with
  | nil =>
    rw [show likeMatch ('%' :: ps) [] = likeMatch ps [] by simp [likeMatch]]
    constructor
    · intro h; exact ⟨[], [], rfl, h⟩
    · rintro ⟨s1, s2, heq, h⟩
      rcases List.append_eq_nil.mp heq.symm with ⟨rfl, rfl⟩
      exact h
  | cons c s2 ih =>
    rw [show likeMatch ('%' :: ps) (c :: s2)
          = (likeMatch ps (c :: s2) || likeMatch ('%' :: ps) s2) by
        simp [likeMatch],
      Bool.or_eq_true]
    constructor
    · rintro (h | h)
      · exact ⟨[], c :: s2, rfl, h⟩
      · rcases ih.mp h with ⟨s1, s2x, heq, hx⟩
        exact ⟨c :: s1, s2x, by simp [heq], hx⟩
    · rintro ⟨s1, s2x, heq, hx⟩
      cases s1 with
      | nil =>
        have hs : s2x = c :: s2 := by simpa using heq.symm
        exact Or.inl (hs ▸ hx)
      | cons a s1x =>
        rcases List.cons_eq_cons.mp heq with ⟨rfl, htl⟩
        exact Or.inr (ih.mpr ⟨s1x, s2x, htl, hx⟩)

/-- A prefix pattern always matches the text made of that prefix and any
suffix, whatever characters the prefix contains. -/
theorem likeMatch_append_percent (p s : Str) :
    likeMatch (p ++ ['%']) (p ++ s) = true := by
  induction p generalizing s with
  | nil =>
    exact likeMatch_percent_cons [] s |>.mpr ⟨s, [], by simp, by simp [likeMatch]⟩
  | cons a p ih =>
    by_cases ha : a = '%'
    · subst ha
      exact likeMatch_percent_cons (p ++ ['%']) ('%' :: (p ++ s)) |>.mpr
        ⟨['%'], p ++ s, rfl, ih s⟩
    · by_cases hu : a = '_' <;> simp [likeMatch, ha, hu, ih s]

/-- For a pattern whose prefix part contains no wildcard-significant
character, matching the prefix pattern is exactly the starts-with test. -/
theorem likeMatch_prefix_iff (p : Str) (s : Str)
    (h : ∀ c ∈ p, c ≠ '%' ∧ c ≠ '_') :
    likeMatch (p ++ ['%']) s = true ↔ p <+: s := by
  induction p generalizing s with
  | nil =>
    simpa using likeMatch_append_percent [] s
  | cons a p ih =>
    have ha := h a (by simp)
    cases s with
    | nil =>
      simp [likeMatch, ha.1]
    | cons c s2 =>
      have hrest : ∀ c ∈ p, c ≠ '%' ∧ c ≠ '_' :=
        fun c hc => h c (List.mem_cons_of_mem a hc)
      simp [likeMatch, ha.1, ha.2, ih s2 hrest, List.cons_prefix_cons,
        Bool.and_eq_true, beq_iff_eq]

/-! ## Claim theorems -/

/-- C7: compute_cache_key is a pure, deterministic, total function that
produces, for every fragment sequence, the concatenation in input order of
each fragment's emitted piece (the canonical serialization of a typed tag,
the raw string verbatim) with no delimiter, and two calls on equal input
yield an identical string. -/
theorem compute_cache_key_pure_concatenation (F : List KeyPart) :
    compute_cache_key F = (F.map keyPartPiece).flatten
    ∧ ∀ G : List KeyPart, F = G → compute_cache_key F = compute_cache_key G :=
  ⟨compute_cache_key_eq_flatten F, fun _ h => by rw [h]⟩

/-- C7 witness: the theorem at a concrete fragment sequence. -/
theorem compute_cache_key_pure_concatenation_witness :
    compute_cache_key [KeyPart.tag .CURVE_POOL_TOKENS, KeyPart.str "0xabc".data]
      = (([KeyPart.tag .CURVE_POOL_TOKENS, KeyPart.str "0xabc".data].map
          keyPartPiece)).flatten
    ∧ compute_cache_key [KeyPart.tag .CURVE_POOL_TOKENS, KeyPart.str "0xabc".data]
      = compute_cache_key [KeyPart.tag .CURVE_POOL_TOKENS, KeyPart.str "0xabc".data] :=
  ⟨(compute_cache_key_pure_concatenation
      [KeyPart.tag .CURVE_POOL_TOKENS, KeyPart.str "0xabc".data]).1,
   (compute_cache_key_pure_concatenation
      [KeyPart.tag .CURVE_POOL_TOKENS, KeyPart.str "0xabc".data]).2
     [KeyPart.tag .CURVE_POOL_TOKENS, KeyPart.str "0xabc".data] rfl⟩

/-- C10: compute_cache_key is a monoid homomorphism from fragment sequences
under concatenation to strings under concatenation, and maps the empty
sequence to the empty string rather than failing. -/
theorem compute_cache_key_monoid_hom :
    (∀ F1 F2 : List KeyPart,
      compute_cache_key (F1 ++ F2)
        = compute_cache_key F1 ++ compute_cache_key F2)
    ∧ compute_cache_key [] = [] :=
  ⟨compute_cache_key_append, rfl⟩

/-- C6: for distinct pool identifiers of the same fixed width, the keys
computed from a tag and the identifier differ, and neither computed key is
a prefix of the other. -/
theorem cache_key_fixed_width_no_prefix (tag : CacheType) (P1 P2 : Str)
    (hne : P1 ≠ P2) (hlen : P1.length = P2.length) :
    compute_cache_key [.tag tag, .str P1] ≠ compute_cache_key [.tag tag, .str P2]
    ∧ ¬ compute_cache_key [.tag tag, .str P1] <+: compute_cache_key [.tag tag, .str P2]
    ∧ ¬ compute_cache_key [.tag tag, .str P2] <+: compute_cache_key [.tag tag, .str P1] := by
  have h1 : compute_cache_key [.tag tag, .str P1] = tag.serialize ++ P1 := by
    simp [compute_cache_key_eq_flatten, keyPartPiece]
  have h2 : compute_cache_key [.tag tag, .str P2] = tag.serialize ++ P2 := by
    simp [compute_cache_key_eq_flatten, keyPartPiece]
  refine ⟨?_, ?_, ?_⟩
  · rw [h1, h2]
    exact fun h => hne (List.append_cancel_left h)
  · rw [h1, h2, List.prefix_append_right_inj]
    exact fun h => hne (h.eq_of_length hlen)
  · rw [h1, h2, List.prefix_append_right_inj]
    exact fun h => hne (h.eq_of_length hlen.symm).symm

/-- C6 witness: the theorem at two concrete equal-width identifiers. -/
theorem cache_key_fixed_width_no_prefix_witness :
    "0xaa".data ≠ "0xab".data
    ∧ ("0xaa".data : Str).length = ("0xab".data : Str).length
    ∧ compute_cache_key [.tag .CURVE_POOL_TOKENS, .str "0xaa".data]
        ≠ compute_cache_key [.tag .CURVE_POOL_TOKENS, .str "0xab".data]
    ∧ ¬ compute_cache_key [.tag .CURVE_POOL_TOKENS, .str "0xaa".data]
        <+: compute_cache_key [.tag .CURVE_POOL_TOKENS, .str "0xab".data]
    ∧ ¬ compute_cache_key [.tag .CURVE_POOL_TOKENS, .str "0xab".data]
        <+: compute_cache_key [.tag .CURVE_POOL_TOKENS, .str "0xaa".data] :=
  ⟨by decide, by decide,
   cache_key_fixed_width_no_prefix CacheType.CURVE_POOL_TOKENS
     "0xaa".data "0xab".data (by decide) (by decide)⟩

/-- C5: writing v1 then v2 under the same key leaves the unique cache with
exactly one row for the computed key, holding v2, and a subsequent read
returns v2. -/
theorem unique_cache_overwrite (db : UniqueCache) (key_parts : List KeyPart)
    (v1 v2 : Str) (t1 t2 : Nat) :
    ((globaldb_set_unique_cache_value_at_ts
        (globaldb_set_unique_cache_value_at_ts db key_parts v1 t1)
        key_parts v2 t2).filter
      (fun r => r.key == compute_cache_key key_parts))
      = [CacheRow.mk (compute_cache_key key_parts) v2 t2]
    ∧ globaldb_get_unique_cache_value
        (globaldb_set_unique_cache_value_at_ts
          (globaldb_set_unique_cache_value_at_ts db key_parts v1 t1)
          key_parts v2 t2)
        key_parts
      = some v2 := by
  have hfilter :
      ((globaldb_set_unique_cache_value_at_ts
          (globaldb_set_unique_cache_value_at_ts db key_parts v1 t1)
          key_parts v2 t2).filter
        (fun r => r.key == compute_cache_key key_parts))
        = [CacheRow.mk (compute_cache_key key_parts) v2 t2] := by
    simp [globaldb_set_unique_cache_value_at_ts, uniqueInsertOrReplace,
      List.filter_append, List.filter_filter]
  refine ⟨hfilter, ?_⟩
  simp only [globaldb_get_unique_cache_value]
  rw [hfilter]
  rfl

/-- C8: after clean_rules, get_event_settings returns (none, none) for
every event (and keeps doing so, lookups being pure, until reset is called
to repopulate the mappings); clean_rules from the already-cleared state is
an idempotent no-op. -/
theorem clean_rules_lifecycle (m : AccountingRulesManager)
    (e : HistoryBaseEntry) :
    (m.clean_rules).get_event_settings e = (none, none)
    ∧ (m.clean_rules).clean_rules = m.clean_rules := by
  constructor
  · simp [AccountingRulesManager.clean_rules,
      AccountingRulesManager.get_event_settings]
  · rfl

/-- C1 counterexample data: a manager whose rule mapping holds exactly one
rule, registered under (T, S, no counterparty), and whose callback mapping
holds a callback under (U, V, no counterparty). -/
def counterexampleManager : AccountingRulesManager :=
  ⟨fun id => if id = ("T".data, "S".data, none) then some ⟨1⟩ else none,
   fun id => if id = ("U".data, "V".data, none) then some ⟨7⟩ else none⟩

/-- C1 counterexample event: a non-EvmEvent with type U and subtype V. -/
def counterexampleEvent : HistoryBaseEntry :=
  ⟨"U".data, "V".data, false, none⟩

/-- C1 counterexample: with a rule registered only under (T, S, none) and a
callback registered under (U, V, none), the non-EvmEvent with type U and
subtype V misses the rule mapping at its full identifier, yet
get_event_settings returns the registered callback in the second component
instead of (none, none). -/
theorem get_event_settings_not_none_none :
    counterexampleManager.event_settings ("T".data, "S".data, none) = some ⟨1⟩
    ∧ counterexampleEvent.is_evm_event = false
    ∧ counterexampleManager.event_settings
        (counterexampleEvent.get_type_identifier true) = none
    ∧ counterexampleManager.get_event_settings counterexampleEvent
        = (none, some ⟨7⟩)
    ∧ counterexampleManager.get_event_settings counterexampleEvent
        ≠ (none, none) := by
  decide

/-- C1 (amended): with a rule registered only under (T, S, none), an
EvmEvent with (T, S, some counterparty) still resolves to that rule through
the counterparty-free fallback lookup; and a non-EvmEvent whose full
identifier has no rule gets rule none paired with whatever callback is
registered under that same full identifier — in particular (none, none)
when none is — without any fallback lookup. -/
theorem get_event_settings_two_tier (m : AccountingRulesManager)
    (T S cp : Str) (rule : BaseEventSettings) (e : HistoryBaseEntry)
    (h1 : m.event_settings (T, S, some cp) = none)
    (h2 : m.event_settings (T, S, none) = some rule)
    (h3 : e.is_evm_event = false)
    (h4 : m.event_settings (e.get_type_identifier true) = none) :
    (m.get_event_settings ⟨T, S, true, some cp⟩).1 = some rule
    ∧ m.get_event_settings e
        = (none, m.event_callbacks (e.get_type_identifier true)) := by
  constructor
  · simp [AccountingRulesManager.get_event_settings,
      HistoryBaseEntry.get_type_identifier, get_event_type_identifier, h1, h2]
  · simp [AccountingRulesManager.get_event_settings, h3, h4]

/-- C1 witness manager: one rule under (T, S, no counterparty) and no
callbacks. -/
def twoTierManager : AccountingRulesManager :=
  ⟨fun id => if id = ("T".data, "S".data, none) then some ⟨1⟩ else none,
   fun _ => none⟩

/-- C1 witness: the amended theorem at a concrete manager, a concrete
EvmEvent carrying a counterparty and a concrete non-EvmEvent. -/
theorem get_event_settings_two_tier_witness :
    (twoTierManager.get_event_settings
        ⟨"T".data, "S".data, true, some "foo".data⟩).1 = some ⟨1⟩
    ∧ twoTierManager.get_event_settings ⟨"U".data, "V".data, false, none⟩
        = (none, twoTierManager.event_callbacks
            (HistoryBaseEntry.get_type_identifier
              ⟨"U".data, "V".data, false, none⟩ true)) :=
  get_event_settings_two_tier twoTierManager "T".data "S".data "foo".data ⟨1⟩
    ⟨"U".data, "V".data, false, none⟩ (by decide) (by decide) rfl (by decide)

/-- C4: the staleness query returns the zero timestamp when no row has the
key, returns the write timestamp after a single write under the key, and
returns the minimum of both timestamps after a further write of a different
value under the same key at a later time. -/
theorem general_cache_oldest_queried_ts (db : GeneralCache)
    (key_parts : List KeyPart) (v1 v2 : Str) (t t2 : Nat)
    (hmiss : ∀ r ∈ db, r.key ≠ compute_cache_key key_parts)
    (hne : v1 ≠ v2) (hlt : t < t2) :
    globaldb_get_general_cache_last_queried_ts_by_key db key_parts = 0
    ∧ globaldb_get_general_cache_last_queried_ts_by_key
        (globaldb_set_general_cache_values_at_ts db key_parts [v1] t)
        key_parts = t
    ∧ globaldb_get_general_cache_last_queried_ts_by_key
        (globaldb_set_general_cache_values_at_ts
          (globaldb_set_general_cache_values_at_ts db key_parts [v1] t)
          key_parts [v2] t2)
        key_parts
      = min t t2 := by
  have hnil : db.filter (fun r => r.key == compute_cache_key key_parts) = [] :=
    List.filter_eq_nil_iff.mpr (fun r hr => by simp [hmiss r hr])
  have hset1 : globaldb_set_general_cache_values_at_ts db key_parts [v1] t
      = db.filter (fun r => !(r.key == compute_cache_key key_parts
          && r.value == v1))
        ++ [CacheRow.mk (compute_cache_key key_parts) v1 t] := by
    simp [globaldb_set_general_cache_values_at_ts, generalInsertOrReplace]
  have hf1 : (globaldb_set_general_cache_values_at_ts db key_parts [v1] t).filter
      (fun r => r.key == compute_cache_key key_parts)
      = [CacheRow.mk (compute_cache_key key_parts) v1 t] := by
    rw [hset1, List.filter_append, List.filter_filter]
    rw [List.filter_eq_nil_iff.mpr (fun r hr => by simp [hmiss r hr])]
    simp
  have hset2 : globaldb_set_general_cache_values_at_ts
      (globaldb_set_general_cache_values_at_ts db key_parts [v1] t)
      key_parts [v2] t2
      = (globaldb_set_general_cache_values_at_ts db key_parts [v1] t).filter
          (fun r => !(r.key == compute_cache_key key_parts
            && r.value == v2))
        ++ [CacheRow.mk (compute_cache_key key_parts) v2 t2] := by
    simp [globaldb_set_general_cache_values_at_ts, generalInsertOrReplace]
  have hf2 : (globaldb_set_general_cache_values_at_ts
      (globaldb_set_general_cache_values_at_ts db key_parts [v1] t)
      key_parts [v2] t2).filter
      (fun r => r.key == compute_cache_key key_parts)
      = [CacheRow.mk (compute_cache_key key_parts) v1 t,
         CacheRow.mk (compute_cache_key key_parts) v2 t2] := by
    rw [hset2, List.filter_append, List.filter_comm, hf1]
    simp [beq_eq_false_iff_ne.mpr hne]
  refine ⟨?_, ?_, ?_⟩
  · simp only [globaldb_get_general_cache_last_queried_ts_by_key]
    rw [hnil]
    simp
  · simp only [globaldb_get_general_cache_last_queried_ts_by_key]
    rw [hf1]
    simp
  · simp only [globaldb_get_general_cache_last_queried_ts_by_key]
    rw [hf2]
    have hsorted : List.mergeSort [t, t2] (fun a b => a ≤ b) = [t, t2] :=
      List.mergeSort_of_sorted
        (List.pairwise_cons.mpr ⟨by simpa using Nat.le_of_lt hlt,
          List.pairwise_singleton _ _⟩)
    simp only [List.map_cons, List.map_nil]
    rw [hsorted, Nat.min_eq_left (Nat.le_of_lt hlt)]

/-- C4 witness: the theorem at the empty store, concrete key fragments,
values and timestamps. -/
theorem general_cache_oldest_queried_ts_witness :
    "a".data ≠ "b".data ∧ 1 < 2
    ∧ globaldb_get_general_cache_last_queried_ts_by_key []
        [KeyPart.str "k".data] = 0
    ∧ globaldb_get_general_cache_last_queried_ts_by_key
        (globaldb_set_general_cache_values_at_ts [] [KeyPart.str "k".data]
          ["a".data] 1)
        [KeyPart.str "k".data] = 1
    ∧ globaldb_get_general_cache_last_queried_ts_by_key
        (globaldb_set_general_cache_values_at_ts
          (globaldb_set_general_cache_values_at_ts [] [KeyPart.str "k".data]
            ["a".data] 1)
          [KeyPart.str "k".data] ["b".data] 2)
        [KeyPart.str "k".data] = min 1 2 :=
  ⟨by decide, by decide,
   (general_cache_oldest_queried_ts [] [KeyPart.str "k".data]
      "a".data "b".data 1 2 (by simp) (by decide) (by decide)).1,
   (general_cache_oldest_queried_ts [] [KeyPart.str "k".data]
      "a".data "b".data 1 2 (by simp) (by decide) (by decide)).2.1,
   (general_cache_oldest_queried_ts [] [KeyPart.str "k".data]
      "a".data "b".data 1 2 (by simp) (by decide) (by decide)).2.2⟩

/-- C3: when no serialized fragment contains a character significant to the
LIKE prefix-match operator, the prefix reader returns exactly the values of
the rows whose stored key starts with the computed prefix, in storage
order, and no others. -/
theorem general_cache_like_exact_prefix (db : GeneralCache)
    (key_parts : List KeyPart)
    (hw : ∀ part ∈ key_parts, ∀ c ∈ keyPartPiece part, c ≠ '%' ∧ c ≠ '_') :
    globaldb_get_general_cache_like db key_parts
      = (db.filter
          (fun r => (compute_cache_key key_parts).isPrefixOf r.key)).map
        (fun r => r.value) := by
  have hck : ∀ c ∈ compute_cache_key key_parts, c ≠ '%' ∧ c ≠ '_' := by
    intro c hc
    rw [compute_cache_key_eq_flatten] at hc
    rcases List.mem_flatten.mp hc with ⟨piece, hpiece, hcp⟩
    rcases List.mem_map.mp hpiece with ⟨part, hpart, rfl⟩
    exact hw part hpart c hcp
  simp only [globaldb_get_general_cache_like]
  congr 1
  apply List.filter_congr
  intro r _
  apply Bool.coe_iff_coe.mp
  rw [likeMatch_prefix_iff (compute_cache_key key_parts) r.key hck,
    List.isPrefixOf_iff_prefix]

/-- C3 witness: the theorem at a store holding a matching key, a key that
extends the prefix, and a near-collision key that does not start with the
prefix. -/
theorem general_cache_like_exact_prefix_witness :
    globaldb_get_general_cache_like
      [CacheRow.mk "AB0".data "x".data 1,
       CacheRow.mk "AB".data "y".data 2,
       CacheRow.mk "AXB0".data "z".data 3]
      [KeyPart.str "AB".data]
      = ([CacheRow.mk "AB0".data "x".data 1,
          CacheRow.mk "AB".data "y".data 2,
          CacheRow.mk "AXB0".data "z".data 3].filter
          (fun r => (compute_cache_key [KeyPart.str "AB".data]).isPrefixOf
            r.key)).map (fun r => r.value) :=
  general_cache_like_exact_prefix
    [CacheRow.mk "AB0".data "x".data 1,
     CacheRow.mk "AB".data "y".data 2,
     CacheRow.mk "AXB0".data "z".data 3]
    [KeyPart.str "AB".data] (by decide)

/-- parsePoolTokens fails as soon as any row's key suffix fails to parse. -/
theorem parsePoolTokens_eq_none (l : List (Str × Str))
    (h : ∃ p ∈ l, pyInt (p.1.drop BASE_POOL_TOKENS_KEY_LENGTH) = none) :
    parsePoolTokens l = none := by
  induction l with
  | nil => simp at h
  | cons a rest ih =>
    obtain ⟨key, address⟩ := a
    rcases h with ⟨p, hp, hnone⟩
    rcases List.mem_cons.mp hp with heq | hmem
    · subst heq
      simp only [parsePoolTokens]
      rw [hnone]
    · simp only [parsePoolTokens]
      rw [ih ⟨p, hmem, hnone⟩]
      cases pyInt (key.drop BASE_POOL_TOKENS_KEY_LENGTH) <;> simp

/-- C9: when some key matched by the prefix query is shorter than the fixed
prefix length, or its portion after the fixed-length prefix is not a valid
base-10 integer, read_curve_pool_tokens raises the ValueError of int()
rather than silently truncating or skipping the entry. -/
theorem read_curve_pool_tokens_error (db : GeneralCache) (pool_address : Str)
    (h : ∃ p ∈ globaldb_get_general_cache_keys_and_values_like db
        [.tag .CURVE_POOL_TOKENS, .str pool_address],
      p.1.length < BASE_POOL_TOKENS_KEY_LENGTH
      ∨ pyInt (p.1.drop BASE_POOL_TOKENS_KEY_LENGTH) = none) :
    read_curve_pool_tokens db pool_address
      = Except.error "invalid literal for int() with base 10".data := by
  have hnone : ∃ p ∈ globaldb_get_general_cache_keys_and_values_like db
      [.tag .CURVE_POOL_TOKENS, .str pool_address],
      pyInt (p.1.drop BASE_POOL_TOKENS_KEY_LENGTH) = none := by
    rcases h with ⟨p, hp, hshort | hbad⟩
    · refine ⟨p, hp, ?_⟩
      rw [List.drop_eq_nil_iff.mpr (Nat.le_of_lt hshort)]
      decide
    · exact ⟨p, hp, hbad⟩
  simp only [read_curve_pool_tokens]
  rw [parsePoolTokens_eq_none _ hnone]

/-- C9 witness: a store whose single row sits under the pool prefix with
the non-numeric suffix xy. -/
theorem read_curve_pool_tokens_error_witness :
    read_curve_pool_tokens
      [CacheRow.mk (compute_cache_key
          [.tag .CURVE_POOL_TOKENS, .str ZERO_ADDRESS] ++ "xy".data)
        "w".data 1]
      ZERO_ADDRESS
      = Except.error "invalid literal for int() with base 10".data :=
  read_curve_pool_tokens_error
    [CacheRow.mk (compute_cache_key
        [.tag .CURVE_POOL_TOKENS, .str ZERO_ADDRESS] ++ "xy".data)
      "w".data 1]
    ZERO_ADDRESS
    (by
      refine ⟨(compute_cache_key
          [.tag .CURVE_POOL_TOKENS, .str ZERO_ADDRESS] ++ "xy".data,
          "w".data), ?_, Or.inr ?_⟩
      · simp [globaldb_get_general_cache_keys_and_values_like,
          likeMatch_append_percent]
      · rw [show BASE_POOL_TOKENS_KEY_LENGTH = (compute_cache_key
            [.tag .CURVE_POOL_TOKENS, .str ZERO_ADDRESS]).length from rfl,
          List.drop_left]
        decide)

/-- parsePoolTokens over rows whose suffixes all parse collects the parsed
(index, address) pairs in row order. -/
theorem parsePoolTokens_map (g : Nat → Str × Str) (idx : Nat → Int)
    (js : List Nat)
    (h : ∀ j ∈ js,
      pyInt ((g j).1.drop BASE_POOL_TOKENS_KEY_LENGTH) = some (idx j)) :
    parsePoolTokens (js.map g)
      = some (js.map (fun j => (idx j, (g j).2))) := by
  induction js with
  | nil => rfl
  | cons j js ih =>
    simp only [List.map_cons, parsePoolTokens]
    rw [h j (List.mem_cons_self j js),
      ih (fun a ha => h a (List.mem_cons_of_mem j ha))]
    simp [string_to_evm_address]

/-- Sorting pairs whose first components are a permutation of the casts of
0..n-1 by first component recovers the pairs in range order. -/
theorem mergeSort_index_pairs (addrFn : Nat → Str) (n : Nat) (js : List Nat)
    (hperm : js.Perm (List.range n)) :
    ((js.map (fun (j : Nat) => ((j : Int), addrFn j))).mergeSort
        (fun a b => decide (a.1 ≤ b.1)))
      = (List.range n).map (fun (j : Nat) => ((j : Int), addrFn j)) := by
  have hperm2 :
      (((js.map (fun (j : Nat) => ((j : Int), addrFn j))).mergeSort
        (fun a b => decide (a.1 ≤ b.1)))).Perm
      ((List.range n).map (fun (j : Nat) => ((j : Int), addrFn j))) :=
    (List.mergeSort_perm _ _).trans (hperm.map _)
  have hsorted :
      (((js.map (fun (j : Nat) => ((j : Int), addrFn j))).mergeSort
        (fun a b => decide (a.1 ≤ b.1)))).Pairwise
      (fun a b => a.1 ≤ b.1) := by
    have h0 := @List.sorted_mergeSort (Int × Str)
      (fun a b => decide (a.1 ≤ b.1))
      (fun a b c hab hbc => by
        simp only [decide_eq_true_eq] at hab hbc ⊢
        exact le_trans hab hbc)
      (fun a b => by
        rcases Int.le_total a.1 b.1 with h | h <;> simp [h])
      (js.map (fun (j : Nat) => ((j : Int), addrFn j)))
    exact h0.imp (fun hab => by simpa using hab)
  have hfstnodup :
      ((((js.map (fun (j : Nat) => ((j : Int), addrFn j))).mergeSort
        (fun a b => decide (a.1 ≤ b.1)))).map Prod.fst).Nodup := by
    have h1 :
        ((((js.map (fun (j : Nat) => ((j : Int), addrFn j))).mergeSort
          (fun a b => decide (a.1 ≤ b.1)))).map Prod.fst).Perm
        (js.map (fun (j : Nat) => (j : Int))) := by
      have h2 := (List.mergeSort_perm
        (js.map (fun (j : Nat) => ((j : Int), addrFn j)))
        (fun a b => decide (a.1 ≤ b.1))).map Prod.fst
      rw [List.map_map] at h2
      exact h2
    apply h1.nodup_iff.mpr
    apply List.Nodup.map (fun a b hab => by exact_mod_cast hab)
    exact hperm.nodup_iff.mpr (List.nodup_range n)
  have hnodup := List.pairwise_map.mp hfstnodup
  have hstrict :
      (((js.map (fun (j : Nat) => ((j : Int), addrFn j))).mergeSort
        (fun a b => decide (a.1 ≤ b.1)))).Pairwise
      (fun a b : Int × Str => a.1 < b.1) :=
    (hsorted.and hnodup).imp (fun hab => lt_of_le_of_ne hab.1 hab.2)
  have htarget :
      (((List.range n).map
        (fun (j : Nat) => ((j : Int), addrFn j)))).Pairwise
      (fun a b : Int × Str => a.1 < b.1) := by
    apply List.pairwise_map.mpr
    exact (List.pairwise_lt_range n).imp (fun hab => Int.ofNat_lt.mpr hab)
  haveI : IsAntisymm (Int × Str) (fun a b => a.1 < b.1) :=
    ⟨fun a b hab hba => absurd (lt_trans hab hba) (lt_irrefl _)⟩
  exact List.eq_of_perm_of_sorted hperm2 hstrict htarget

/-- C2: with the store holding, in any insertion order, exactly the pool's
token rows — keys formed from the pool-tokens tag, the pool address and
numeric index suffixes for indices 0..n-1 — read_curve_pool_tokens returns
exactly those addresses sorted ascending by index suffix. -/
theorem read_curve_pool_tokens_ordered (pool_address : Str) (n : Nat)
    (addrFn sufFn : Nat → Str) (tsFn : Nat → Nat) (js : List Nat)
    (hlen : pool_address.length = ZERO_ADDRESS.length)
    (hperm : js.Perm (List.range n))
    (hsuf : ∀ i, i < n → pyInt (sufFn i) = some (i : Int)) :
    read_curve_pool_tokens
      (js.map (fun i => CacheRow.mk
        (compute_cache_key
          [.tag .CURVE_POOL_TOKENS, .str pool_address, .str (sufFn i)])
        (addrFn i) (tsFn i)))
      pool_address
      = Except.ok ((List.range n).map addrFn) := by
  have hmemn : ∀ j ∈ js, j < n := fun j hj =>
    List.mem_range.mp (hperm.mem_iff.mp hj)
  have hkey : ∀ i, compute_cache_key
      [.tag .CURVE_POOL_TOKENS, .str pool_address, .str (sufFn i)]
      = compute_cache_key [.tag .CURVE_POOL_TOKENS, .str pool_address]
        ++ sufFn i := by
    intro i
    simp [compute_cache_key_eq_flatten, keyPartPiece]
  have hbase : (compute_cache_key
      [.tag .CURVE_POOL_TOKENS, .str pool_address]).length
      = BASE_POOL_TOKENS_KEY_LENGTH := by
    simp [BASE_POOL_TOKENS_KEY_LENGTH, compute_cache_key_eq_flatten,
      keyPartPiece, hlen]
  have hquery : globaldb_get_general_cache_keys_and_values_like
      (js.map (fun i => CacheRow.mk
        (compute_cache_key
          [.tag .CURVE_POOL_TOKENS, .str pool_address, .str (sufFn i)])
        (addrFn i) (tsFn i)))
      [.tag .CURVE_POOL_TOKENS, .str pool_address]
      = js.map (fun i =>
          (compute_cache_key [.tag .CURVE_POOL_TOKENS, .str pool_address]
            ++ sufFn i, addrFn i)) := by
    simp only [globaldb_get_general_cache_keys_and_values_like]
    rw [List.filter_eq_self.mpr (fun r hr => ?_), List.map_map]
    · apply List.map_congr_left
      intro i _
      simp [Function.comp, hkey i]
    · rcases List.mem_map.mp hr with ⟨i, _, rfl⟩
      simp only [hkey i]
      exact likeMatch_append_percent _ (sufFn i)
  have hparse : parsePoolTokens
      (js.map (fun i =>
        (compute_cache_key [.tag .CURVE_POOL_TOKENS, .str pool_address]
          ++ sufFn i, addrFn i)))
      = some (js.map (fun (j : Nat) => ((j : Int), addrFn j))) := by
    rw [parsePoolTokens_map
      (fun i =>
        (compute_cache_key [.tag .CURVE_POOL_TOKENS, .str pool_address]
          ++ sufFn i, addrFn i))
      (fun (j : Nat) => (j : Int)) js
      (fun j hj => by
        simp only
        rw [← hbase, List.drop_left]
        exact hsuf j (hmemn j hj))]
  simp only [read_curve_pool_tokens]
  rw [hquery, hparse]
  show Except.ok
      ((((js.map (fun (j : Nat) => ((j : Int), addrFn j))).mergeSort
        (fun a b => decide (a.1 ≤ b.1))).map (fun p => p.2)))
    = Except.ok ((List.range n).map addrFn)
  rw [mergeSort_index_pairs addrFn n js hperm]
  simp [List.map_map, Function.comp]

/-- C2 witness: two token rows for the zero-address pool inserted in
reversed index order still read back in index order. -/
theorem read_curve_pool_tokens_ordered_witness :
    read_curve_pool_tokens
      ([1, 0].map (fun i => CacheRow.mk
        (compute_cache_key [.tag .CURVE_POOL_TOKENS, .str ZERO_ADDRESS,
          .str (if i = 0 then "0".data else "1".data)])
        (if i = 0 then "0xA".data else "0xB".data) 5))
      ZERO_ADDRESS
      = Except.ok ((List.range 2).map
          (fun i => if i = 0 then "0xA".data else "0xB".data)) :=
  read_curve_pool_tokens_ordered ZERO_ADDRESS 2
    (fun i => if i = 0 then "0xA".data else "0xB".data)
    (fun i => if i = 0 then "0".data else "1".data)
    (fun _ => 5) [1, 0] rfl (by decide) (by decide)

end Rotki
